import Mathlib

/-!
# gitlab-ci-multi-runner: docker-machine command wrapper and network client

A shallow embedding of `helpers/docker/machine_command.go` and `network/client.go`.

Modelling conventions
* Go strings are modelled as Lean strings (sequences of Unicode code points).
* A Go `error` is an `Option String`: `none` is `nil`, `some msg` carries `Error()`.
* External effects (spawning `docker-machine`, the file system, the clock, the
  HTTP round trip, the JSON and URL libraries) are explicit parameters; the
  commands spawned so far are threaded through as a trace.
-/

namespace Go

/-- Go's `unicode.IsSpace` (the same set is used by the scanner in `fmt`). -/
def isSpace (c : Char) : Bool :=
  let n := c.toNat
  (0x09 ≤ n && n ≤ 0x0d) || n == 0x20 || n == 0x85 || n == 0xa0 || n == 0x1680 ||
  (0x2000 ≤ n && n ≤ 0x200a) || n == 0x2028 || n == 0x2029 || n == 0x202f ||
  n == 0x205f || n == 0x3000

/-- Characters of `strings.TrimSpace`: leading and trailing white space removed. -/
def trimSpaceChars (cs : List Char) : List Char :=
  ((cs.dropWhile isSpace).reverse.dropWhile isSpace).reverse

/-- Go's `strings.TrimSpace`. -/
def TrimSpace (s : String) : String := ⟨trimSpaceChars s.data⟩

/-- Rendering of a `[]string` by the `%v` verb: `[a b c]`. -/
def formatV (args : List String) : String := "[" ++ " ".intercalate args ++ "]"

end Go

namespace Fmt

open Go

/-!
## `fmt.Sscanf` with `*string` operands

`machineCommand.List` calls `fmt.Sscanf(line, nodeFilter, &query)` and looks only at
the returned count. The definitions below follow `fmt/scan.go` of the Go standard
library (`doScanf`, `advance`, `SkipSpace`, `scanOne`, `convertString`, ...) for
operands of type `*string`. A scan error (a panic recovered by `errorHandler`) is
`none`; the scanned text itself is not kept, only what decides the count.
-/

/-- The scanner state `ss`: the unread input, the number of runes consumed and the
bound on that number while one operand is being scanned. -/
structure ss where
  rs : List Char
  count : Nat
  argLimit : Nat
deriving DecidableEq, Repr

/-- The constant `hugeWid = 1 << 30`. -/
def hugeWid : Nat := 1073741824

/-- Model of `ss.getRune`: `none` is `eof` (input exhausted or `count >= argLimit`).
`UnreadRune` is modelled by going back to the state before the read. -/
def ss.getRune (s : ss) : Option (Char × ss) :=
  if s.count ≥ s.argLimit then none
  else match s.rs with
    | [] => none
    | r :: rest => some (r, { s with rs := rest, count := s.count + 1 })

/-- Model of `ss.peek`: is the next rune one of `ok`? (reads and unreads) -/
def ss.peek (s : ss) (ok : List Char) : Bool :=
  match s.getRune with
  | none => false
  | some (r, _) => ok.contains r

/-- The loop of `ss.SkipSpace` with `nlIsSpace = false`, over the unread input. -/
def skipSpaceLoop (argLimit : Nat) : List Char → Nat → Option ss
  | [], count => some ⟨[], count, argLimit⟩
  | r :: rest, count =>
    if count ≥ argLimit then some ⟨r :: rest, count, argLimit⟩
    else if r = '\r' && ss.peek ⟨rest, count + 1, argLimit⟩ ['\n'] then
      skipSpaceLoop argLimit rest (count + 1)
    else if r = '\n' then none
    else if !isSpace r then some ⟨r :: rest, count, argLimit⟩
    else skipSpaceLoop argLimit rest (count + 1)

/-- Model of `ss.SkipSpace`. -/
def ss.SkipSpace (s : ss) : Option ss := skipSpaceLoop s.argLimit s.rs s.count

/-- Model of `ss.notEOF`: an error at `eof`, otherwise the state is unchanged. -/
def ss.notEOF (s : ss) : Option ss :=
  match s.getRune with
  | none => none
  | some _ => some s

/-- The reading loop of `ss.token` with the predicate `notSpace`. -/
def tokenLoop (argLimit : Nat) : List Char → Nat → ss
  | [], count => ⟨[], count, argLimit⟩
  | r :: rest, count =>
    if count ≥ argLimit then ⟨r :: rest, count, argLimit⟩
    else if isSpace r then ⟨r :: rest, count, argLimit⟩
    else tokenLoop argLimit rest (count + 1)

/-- Model of `ss.token(true, notSpace)`. -/
def ss.token (s : ss) : Option ss :=
  match s.SkipSpace with
  | none => none
  | some s => some (tokenLoop s.argLimit s.rs s.count)

/-- Model of `hexDigit`: is the rune a hexadecimal digit? -/
def hexDigit (d : Char) : Bool :=
  ('0' ≤ d && d ≤ '9') || ('a' ≤ d && d ≤ 'f') || ('A' ≤ d && d ≤ 'F')

/-- The loop of `ss.hexString` over `hexByte`; `any` tells whether a byte was read. -/
def hexLoop (argLimit : Nat) : List Char → Nat → Bool → Option ss
  | [], count, any => if any then some ⟨[], count, argLimit⟩ else none
  | rune1 :: rest, count, any =>
    if count ≥ argLimit || !hexDigit rune1 then
      (if any then some ⟨rune1 :: rest, count, argLimit⟩ else none)
    else
      match rest with
      | [] => none
      | rune2 :: rest2 =>
        if count + 1 ≥ argLimit then none
        else if !hexDigit rune2 then none
        else hexLoop argLimit rest2 (count + 2) true

/-- Model of `ss.hexString`. -/
def ss.hexString (s : ss) : Option ss :=
  match s.notEOF with
  | none => none
  | some s => hexLoop s.argLimit s.rs s.count false

/-- Value of a hexadecimal digit (`unhex` of `strconv`). -/
def unhex (d : Char) : Option Nat :=
  if '0' ≤ d && d ≤ '9' then some (d.toNat - 48)
  else if 'a' ≤ d && d ≤ 'f' then some (d.toNat - 97 + 10)
  else if 'A' ≤ d && d ≤ 'F' then some (d.toNat - 65 + 10)
  else none

/-- Read `n` hexadecimal digits, accumulating `v = v<<4 | x`. -/
def readHex : Nat → Nat → List Char → Option (Nat × List Char)
  | 0, v, s => some (v, s)
  | _ + 1, _, [] => none
  | n + 1, v, d :: s =>
    match unhex d with
    | none => none
    | some x => readHex n (v * 16 + x) s

/-- Model of `utf8.ValidRune`. -/
def validRune (v : Nat) : Bool := v < 0xD800 || (0xE000 ≤ v && v ≤ 0x10FFFF)

/-- Model of `strconv.UnquoteChar(s, quote)` with `quote = '"'`: the number of characters
taken by one character or escape sequence at the head of `s`, `none` for
`ErrSyntax`. -/
def unquoteChar : List Char → Option Nat
  | [] => none
  | c :: s =>
    if c = '"' then none
    else if c ≠ '\\' then some 1
    else match s with
      | [] => none
      | e :: s =>
        if e = 'a' || e = 'b' || e = 'f' || e = 'n' || e = 'r' || e = 't' || e = 'v' then some 2
        else if e = 'x' then (readHex 2 0 s).map (fun _ => 4)
        else if e = 'u' || e = 'U' then
          match readHex (if e = 'u' then 4 else 8) 0 s with
          | none => none
          | some (v, _) => if validRune v then some (if e = 'u' then 6 else 10) else none
        else if '0' ≤ e && e ≤ '7' then
          match s with
          | d1 :: d2 :: _ =>
            if '0' ≤ d1 && d1 ≤ '7' && '0' ≤ d2 && d2 ≤ '7' then
              (if ((e.toNat - 48) * 8 + (d1.toNat - 48)) * 8 + (d2.toNat - 48) > 255 then none
               else some 4)
            else none
          | _ => none
        else if e = '\\' then some 2
        else if e = '"' then some 2
        else none

/-- The loop of `strconv.Unquote` on a double-quoted string, after the opening
quote: every character or escape must be valid, a raw newline is an error, and the
first unescaped quote must be the last character. `skip` counts the characters of
the current escape sequence still to be passed over. -/
def unquoteLoop : List Char → Nat → Bool
  | [], _ => false
  | _ :: t, skip + 1 => unquoteLoop t skip
  | c :: t, 0 =>
    if c = '"' then t.isEmpty
    else if c = '\n' then false
    else match unquoteChar (c :: t) with
      | none => false
      | some k => unquoteLoop t (k - 1)

/-- Does `strconv.Unquote` accept `buf` (a text starting with a double quote)? -/
def unquoteOk (buf : List Char) : Bool :=
  match buf with
  | '"' :: s => unquoteLoop s 0
  | _ => false

/-- Back-quoted operand of `ss.quotedString`: read up to the closing back quote. -/
def backquoteLoop (argLimit : Nat) : List Char → Nat → Option ss
  | [], _ => none
  | r :: rest, count =>
    if count ≥ argLimit then none
    else if r = (Char.ofNat 96) then some ⟨rest, count + 1, argLimit⟩
    else backquoteLoop argLimit rest (count + 1)

/-- Double-quoted operand of `ss.quotedString`: read up to the closing quote, the
character after a backslash being protected, then let `strconv.Unquote` decide.
`buf` is the text read so far, in reverse. -/
def doublequoteLoop (argLimit : Nat) : List Char → Nat → List Char → Option ss
  | [], _, _ => none
  | r :: rest, count, buf =>
    if count ≥ argLimit then none
    else if r = '\\' then
      match rest with
      | [] => none
      | r2 :: rest2 =>
        if count + 1 ≥ argLimit then none
        else doublequoteLoop argLimit rest2 (count + 2) (r2 :: r :: buf)
    else if r = '"' then
      (if unquoteOk (r :: buf).reverse then some ⟨rest, count + 1, argLimit⟩ else none)
    else doublequoteLoop argLimit rest (count + 1) (r :: buf)

/-- Model of `ss.quotedString`. -/
def ss.quotedString (s : ss) : Option ss :=
  match s.notEOF with
  | none => none
  | some s =>
    match s.getRune with
    | none => none
    | some (quote, s1) =>
      if quote = (Char.ofNat 96) then backquoteLoop s1.argLimit s1.rs s1.count
      else if quote = '"' then doublequoteLoop s1.argLimit s1.rs s1.count ['"']
      else none

/-- Model of `ss.convertString(verb)`; `okVerb` accepts the verbs `svqxX`. -/
def ss.convertString (s : ss) (verb : Char) : Option ss :=
  if !(['s', 'v', 'q', 'x', 'X'].contains verb) then none
  else match s.SkipSpace with
    | none => none
    | some s =>
      match s.notEOF with
      | none => none
      | some s =>
        if verb = 'q' then s.quotedString
        else if verb = 'x' || verb = 'X' then s.hexString
        else s.token

/-- Model of `ss.scanOne(verb, arg)` for an operand `arg` of type `*string`. -/
def ss.scanOne (s : ss) (verb : Char) : Option ss := s.convertString verb

/-- Model of `ss.scanPercent`. -/
def ss.scanPercent (s : ss) : Option ss :=
  match s.SkipSpace with
  | none => none
  | some s =>
    match s.notEOF with
    | none => none
    | some s =>
      match s.getRune with
      | none => none
      | some (r, s1) => if r = '%' then some s1 else none

/-- Read runes while they are spaces other than newline (the loops
`for isSpace(inputc) && inputc != '\n'` of `advance`, first read included). Returns
the rune that stopped the loop (`none` is `eof`), the state after reading it and
the state before reading it. -/
def readPastBlanks (argLimit : Nat) : List Char → Nat → Option Char × ss × ss
  | [], count => (none, ⟨[], count, argLimit⟩, ⟨[], count, argLimit⟩)
  | r :: rest, count =>
    if count ≥ argLimit then
      (none, ⟨r :: rest, count, argLimit⟩, ⟨r :: rest, count, argLimit⟩)
    else if isSpace r && r ≠ '\n' then readPastBlanks argLimit rest (count + 1)
    else (some r, ⟨rest, count + 1, argLimit⟩, ⟨r :: rest, count, argLimit⟩)

/-- The loop `for j := 0; j < newlines; j++` of `advance`: each newline of the
format takes spaces and then a newline or the end of the input. -/
def matchNewlines : Nat → ss → Option ss
  | 0, s => some s
  | j + 1, s =>
    match readPastBlanks s.argLimit s.rs s.count with
    | (none, after, _) => matchNewlines j after
    | (some inputc, after, _) => if inputc = '\n' then matchNewlines j after else none

/-- The input side of a run of white space in the format holding `newlines`
newlines and, when `trailingSpace`, ending in spaces that are not newlines. -/
def matchSpaceRun (newlines : Nat) (trailingSpace : Bool) (s : ss) : Option ss :=
  match matchNewlines newlines s with
  | none => none
  | some s =>
    if trailingSpace then
      let first := (s.getRune).map (fun p => p.1)
      if newlines = 0 && (match first with
          | none => false
          | some inputc => !isSpace inputc || inputc = '\n') then none
      else
        match readPastBlanks s.argLimit s.rs s.count with
        | (none, after, _) => some after
        | (some _, _, before) => some before
    else some s

/-- Result of `ss.advance`. -/
inductive Adv where
  /-- A scan error was raised. -/
  | error
  /-- The input did not match the format: `advance` returned `-1`. -/
  | mismatch (s : ss)
  /-- The number `i` of format characters consumed. -/
  | ok (i : Nat) (s : ss)
deriving DecidableEq, Repr

/-- What one iteration of the loop of `advance` decides. -/
inductive AdvStep where
  /-- The function `advance` returns `r`. -/
  | stop (r : Adv)
  /-- The loop goes on, `skip` characters further than the next one. -/
  | go (skip : Nat) (run : Option (Nat × Bool)) (i : Nat) (s : ss)
deriving DecidableEq, Repr

/-- One iteration of the loop of `ss.advance` at the format character `fmtc`,
followed by `rest`. `run` is `some (newlines, trailingSpace)` while inside a run of
white space of the format, `i` the number of format characters consumed. -/
def advanceStep (fmtc : Char) (rest : List Char) (run : Option (Nat × Bool)) (i : Nat)
    (s : ss) : AdvStep :=
  if isSpace fmtc then
    let st := run.getD (0, false)
    .go 0 (some (if fmtc = '\n' then (st.1 + 1, false) else (st.1, true))) (i + 1) s
  else
    match (match run with
        | none => some s
        | some (newlines, trailingSpace) => matchSpaceRun newlines trailingSpace s) with
    | none => .stop .error
    | some s =>
      if fmtc = '%' then
        match rest with
        | [] => .stop .error
        | nextc :: _ =>
          if nextc ≠ '%' then .stop (.ok i s)
          else
            match s.getRune with
            | none => .stop .error
            | some (inputc, s1) =>
              if fmtc ≠ inputc then .stop (.mismatch s) else .go 1 none (i + 2) s1
      else
        match s.getRune with
        | none => .stop .error
        | some (inputc, s1) =>
          if fmtc ≠ inputc then .stop (.mismatch s) else .go 0 none (i + 1) s1

/-- The end of the format in `ss.advance`: a pending run of white space is matched
against the input, then `i` is returned. -/
def advanceEnd (run : Option (Nat × Bool)) (i : Nat) (s : ss) : Adv :=
  match run with
  | none => .ok i s
  | some (newlines, trailingSpace) =>
    match matchSpaceRun newlines trailingSpace s with
    | none => .error
    | some s => .ok i s

/-- Model of `ss.advance(format)`. `skip` counts the format characters already
consumed by the previous iteration (the second `%` of `%%`). -/
def advance : List Char → Nat → Option (Nat × Bool) → Nat → ss → Adv
  | [], _, run, i, s => advanceEnd run i s
  | _ :: rest, skip + 1, run, i, s => advance rest skip run i s
  | fmtc :: rest, 0, run, i, s =>
    match advanceStep fmtc rest run i s with
    | .stop r => r
    | .go skip run i s => advance rest skip run i s

/-- Model of `tooLarge` of `fmt/format.go`. -/
def tooLarge (x : Nat) : Bool := x > 1000000

/-- Model of `parsenum(format, i, end)` with `end = len(format) - 1`, over the format from
position `i` on. Returns `(num, isnum, k, jumped)`: the next position is `i + k`, and
`jumped` tells that the number overflowed and the position was set to `end`. -/
def parsenum : List Char → Nat → Bool → Nat → Nat × Bool × Nat × Bool
  | [], num, isnum, k => (num, isnum, k, false)
  | [_], num, isnum, k => (num, isnum, k, false)
  | d :: e :: tl, num, isnum, k =>
    if '0' ≤ d && d ≤ '9' then
      if tooLarge num then (0, false, k + 1 + tl.length, true)
      else parsenum (e :: tl) (num * 10 + (d.toNat - 48)) true (k + 1)
    else (num, isnum, k, false)

/-- The verb decoded at the position left by `parsenum`. After an overflow the
position is the last byte of the format, which decodes to `utf8.RuneError` unless
the last character is ASCII. -/
def verbAt (format : List Char) (k : Nat) (jumped : Bool) : Option Char :=
  match format.drop k with
  | [] => none
  | c :: _ => some (if jumped && c.toNat ≥ 128 then Char.ofNat 0xFFFD else c)

/-- One verb of `doScanf`, `format` being what follows the `%`. Returns `none` when
the scan stops (an error or `break`), otherwise the number of characters of `format`
consumed, the new state and the new number of operands processed. -/
def scanVerb (nargs : Nat) (format : List Char) (s : ss) (numProcessed : Nat) :
    Option (Nat × ss × Nat) :=
  let p := parsenum format 0 false 0
  let maxWid := if p.2.1 then p.1 else hugeWid
  match verbAt format p.2.2.1 p.2.2.2 with
  | none => none
  | some c =>
    match (if c ≠ 'c' then s.SkipSpace else some s) with
    | none => none
    | some s =>
      if c = '%' then
        (s.scanPercent).map (fun s => (p.2.2.1 + 1, s, numProcessed))
      else
        let s := { s with argLimit := min hugeWid (s.count + maxWid) }
        if numProcessed ≥ nargs then none
        else
          (s.scanOne c).map
            (fun s => (p.2.2.1 + 1, { s with argLimit := hugeWid }, numProcessed + 1))

/-- One iteration of the loop of `doScanf` at a format starting with `c0`, followed
by `format`. Returns `none` when the scan stops (an error or `break`), otherwise the
number of characters of `format` consumed, the new state and the new number of
operands processed. -/
def doScanfStep (nargs : Nat) (c0 : Char) (format : List Char) (s : ss)
    (numProcessed : Nat) : Option (Nat × ss × Nat) :=
  match advance (c0 :: format) 0 none 0 s with
  | .error => none
  | .ok (w + 1) s1 => some (w, s1, numProcessed)
  | .ok 0 s1 => if c0 ≠ '%' then none else scanVerb nargs format s1 numProcessed
  | .mismatch s1 => if c0 ≠ '%' then none else scanVerb nargs format s1 numProcessed

/-- Model of `ss.doScanf(format, a)` with `nargs` operands of type `*string`: the number of
operands processed. `skip` counts the format characters already consumed by the
previous iteration (`i += w`). -/
def doScanf (nargs : Nat) : List Char → Nat → ss → Nat → Nat
  | [], _, _, numProcessed => numProcessed
  | _ :: format, skip + 1, s, numProcessed => doScanf nargs format skip s numProcessed
  | c0 :: format, 0, s, numProcessed =>
    match doScanfStep nargs c0 format s numProcessed with
    | none => numProcessed
    | some (k, s2, n2) => doScanf nargs format k s2 n2

/-- The count returned by `fmt.Sscanf(str, format, &query)` with `query` a string. -/
def Sscanf (str format : String) : Nat :=
  doScanf 1 format.data 0 ⟨str.data, 0, hugeWid⟩ 0

/-- The count that `fmt.Sscanf(str, format, &q1, ..., &qn)` returns with `nargs`
string operands: the number of tokens the template extracts from `str` when there
is room for `nargs` of them. -/
def SscanfN (nargs : Nat) (str format : String) : Nat :=
  doScanf nargs format.data 0 ⟨str.data, 0, hugeWid⟩ 0

/-- The number of placeholders of a template: `%%` stands for a percent sign, every
other `%` starts a placeholder. -/
def placeholders : List Char → Nat
  | [] => 0
  | [c] => if c = '%' then 1 else 0
  | c :: d :: rest2 =>
    if c = '%' then
      (if d = '%' then placeholders rest2 else 1 + placeholders (d :: rest2))
    else placeholders (d :: rest2)

end Fmt

namespace DockerHelpers

open Go

abbrev Strings := List String

/-- How the standard output of a spawned command is wired. -/
inductive Stdout where
  /-- Model of `cmd.Stdout = os.Stdout` followed by `cmd.Run()`. -/
  | inherit
  /-- Model of `cmd.Output()`. -/
  | capture
  /-- Model of `cmd.Run()` with no stdout attached. -/
  | discard
deriving DecidableEq, Repr

/-- One `exec.Command(name, args...)` that was run. -/
structure Invocation where
  name : String
  args : Strings
  stdout : Stdout
deriving DecidableEq, Repr

/-- What a finished process reports: captured standard output and the error of
`Run`/`Output` (`none` when the process started and exited with status 0). -/
structure ProcResult where
  data : String
  err : Option String
deriving DecidableEq, Repr

/-- The commands spawned so far, oldest first. -/
abbrev Trace := List Invocation

/-- Behaviour of the external tool: its result may depend on everything that was
run before. -/
abbrev Tool := Trace → Invocation → ProcResult

/-- Run one command: ask the tool, record the invocation. -/
def exec (tool : Tool) (w : Trace) (inv : Invocation) : ProcResult × Trace :=
  (tool w inv, w ++ [inv])

/-- Modelled from the spec: the `DockerCredentials` type is declared outside the
two source files; section 3 gives its fields Host, CertPath and TLSVerify. -/
structure DockerCredentials where
  Host : String := ""
  CertPath : String := ""
  TLSVerify : Bool := false
deriving DecidableEq, Repr

/-- The argument vector assembled by `Create` (machine_command.go lines 20-27). -/
def createArgs (driver name : String) (opts : Strings) : Strings :=
  let args := ["create", "--driver", driver]
  let args := opts.foldl (fun args opt => args ++ ["--" ++ opt]) args
  args ++ [name]

/-- Model of `machineCommand.Create`. -/
def machineCommand.Create (tool : Tool) (w : Trace) (driver name : String)
    (opts : Strings) : Option String × Trace :=
  let r := exec tool w ⟨"docker-machine", createArgs driver name opts, .inherit⟩
  (r.1.err, r.2)

/-- Model of `machineCommand.Provision`. -/
def machineCommand.Provision (tool : Tool) (w : Trace) (name : String) :
    Option String × Trace :=
  let r := exec tool w ⟨"docker-machine", ["provision", name], .inherit⟩
  (r.1.err, r.2)

/-- Model of `machineCommand.Remove`. -/
def machineCommand.Remove (tool : Tool) (w : Trace) (name : String) :
    Option String × Trace :=
  let r := exec tool w ⟨"docker-machine", ["rm", "-y", name], .inherit⟩
  (r.1.err, r.2)

/-- Model of `machineCommand.get`: returns `((out, err), trace)`. -/
def machineCommand.get (tool : Tool) (w : Trace) (args : Strings) :
    (String × Option String) × Trace :=
  let r := exec tool w ⟨"docker-machine", args, .capture⟩
  match r.1.err with
  | some e => (("", some e), r.2)
  | none =>
    let out := TrimSpace r.1.data
    if out = "" then ((out, some ("failed to get " ++ formatV args)), r.2)
    else ((out, none), r.2)

/-- Model of `machineCommand.IP`. -/
def machineCommand.IP (tool : Tool) (w : Trace) (name : String) :=
  machineCommand.get tool w ["ip", name]

/-- Model of `machineCommand.URL`. -/
def machineCommand.URL (tool : Tool) (w : Trace) (name : String) :=
  machineCommand.get tool w ["url", name]

/-- Model of `machineCommand.CertPath`. -/
def machineCommand.CertPath (tool : Tool) (w : Trace) (name : String) :=
  machineCommand.get tool w
    ["inspect", name, "-f", "\x7b\x7b.HostOptions.AuthOptions.StorePath\x7d\x7d"]

/-- Model of `machineCommand.Status`. -/
def machineCommand.Status (tool : Tool) (w : Trace) (name : String) :=
  machineCommand.get tool w ["status", name]

/-- Model of `machineCommand.CanConnect`. -/
def machineCommand.CanConnect (tool : Tool) (w : Trace) (name : String) : Bool × Trace :=
  let r := exec tool w ⟨"docker-machine", ["config", name], .discard⟩
  match r.1.err with
  | none => (true, r.2)
  | some _ => (false, r.2)

/-- The connectivity probe `docker-machine config <name>`. -/
def configInv (name : String) : Invocation := ⟨"docker-machine", ["config", name], .discard⟩

/-- The URL fetch `docker-machine url <name>`. -/
def urlInv (name : String) : Invocation := ⟨"docker-machine", ["url", name], .capture⟩

/-- The certificate-path fetch `docker-machine inspect <name> -f <template>`. -/
def inspectInv (name : String) : Invocation :=
  ⟨"docker-machine",
    ["inspect", name, "-f", "\x7b\x7b.HostOptions.AuthOptions.StorePath\x7d\x7d"], .capture⟩

/-- Model of `machineCommand.Credentials`: returns `((dc, err), trace)`. -/
def machineCommand.Credentials (tool : Tool) (w : Trace) (name : String) :
    (DockerCredentials × Option String) × Trace :=
  let dc : DockerCredentials := {}
  let c := machineCommand.CanConnect tool w name
  if !c.1 then ((dc, some "Can't connect"), c.2)
  else
    let dc := { dc with TLSVerify := true }
    let u := machineCommand.URL tool c.2 name
    let dc := { dc with Host := u.1.1 }
    match u.1.2 with
    | none =>
      let p := machineCommand.CertPath tool u.2 name
      (({ dc with CertPath := p.1.1 }, p.1.2), p.2)
    | some e => ((dc, some e), u.2)

/-- Model of `bufio.Reader.ReadString(delim)` on the unread input: the text read (the
delimiter included when found), the input left, and whether the error is `io.EOF`
(the delimiter was not found). -/
def readString (delim : Char) : List Char → List Char × List Char × Bool
  | [] => ([], [], true)
  | c :: cs =>
    if c = delim then ([c], cs, false)
    else
      let r := readString delim cs
      (c :: r.1, r.2.1, r.2.2)

/-- The `for` loop of `machineCommand.List` (machine_command.go lines 62-84) over
the unread part of the captured output. `fuel` bounds the number of iterations;
`machineCommand.List` supplies more than the loop can use. -/
def listLoop (nodeFilter : String) : Nat → List Char → Strings → Strings
  | 0, _, machines => machines
  | fuel + 1, input, machines =>
    let r := readString '\n' input
    if r.2.2 then machines
    else
      let line := TrimSpace ⟨r.1⟩
      if line = "" then listLoop nodeFilter fuel r.2.1 machines
      else if Fmt.Sscanf line nodeFilter ≠ 1 then listLoop nodeFilter fuel r.2.1 machines
      else listLoop nodeFilter fuel r.2.1 (machines ++ [line])

/-- Model of `machineCommand.List`: returns `((machines, err), trace)`. -/
def machineCommand.List (tool : Tool) (w : Trace) (nodeFilter : String) :
    (Strings × Option String) × Trace :=
  let r := exec tool w ⟨"docker-machine", ["ls", "-q"], .capture⟩
  match r.1.err with
  | some e => (([], some e), r.2)
  | none => ((listLoop nodeFilter (r.1.data.length + 1) r.1.data.data [], none), r.2)

/-- The lines of the output that end in a newline, newline included, in order.
`cur` is the line being read, reversed. -/
def terminatedLines : List Char → List Char → List String
  | [], _ => []
  | c :: cs, cur =>
    if c = '\n' then ⟨(c :: cur).reverse⟩ :: terminatedLines cs []
    else terminatedLines cs (c :: cur)

/-- The lines of a text, in order: each stretch up to and including a newline, and
what follows the last newline when that is not empty. `cur` is the line being read,
reversed. -/
def allLines : List Char → List Char → List String
  | [], cur => if cur.isEmpty then [] else [⟨cur.reverse⟩]
  | c :: cs, cur =>
    if c = '\n' then ⟨(c :: cur).reverse⟩ :: allLines cs []
    else allLines cs (c :: cur)

/-- The identifiers `List` chooses among: the trimmed, non-blank lines of the
output. -/
def candidateLines (data : String) : Strings :=
  ((allLines data.data []).map TrimSpace).filter (fun l => l ≠ "")

end DockerHelpers

namespace Filepath

/-- The `..` case of `filepath.Clean` when it can backtrack: `out.w--` and then
`for out.w > dotdot && !IsPathSeparator(out.index(out.w)) { out.w-- }`. The buffer
is kept reversed. -/
def backtrack (dotdot : Nat) : List Char → List Char
  | [] => []
  | h :: t => if t.length > dotdot && h ≠ '/' then backtrack dotdot t else t

/-- The main loop of `filepath.Clean` (Unix) over the unread path. `inElem` is true
while a real path element is being copied, `out` is the buffer reversed. -/
def cleanLoop (rooted : Bool) : List Char → Bool → List Char → Nat → List Char
  | [], _, out, _ => out
  | c :: rest, true, out, dotdot =>
    if c = '/' then cleanLoop rooted rest false out dotdot
    else cleanLoop rooted rest true (c :: out) dotdot
  | c :: rest, false, out, dotdot =>
    if c = '/' then cleanLoop rooted rest false out dotdot
    else if c = '.' && (rest.isEmpty || rest.head? = some '/') then
      cleanLoop rooted rest false out dotdot
    else
      let elem :=
        cleanLoop rooted rest true
          (c :: (if (rooted && out.length ≠ 1) || (!rooted && out.length ≠ 0)
            then '/' :: out else out)) dotdot
      match rest with
      | '.' :: rest2 =>
        if c = '.' && (rest2.isEmpty || rest2.head? = some '/') then
          (if out.length > dotdot then cleanLoop rooted rest2 false (backtrack dotdot out) dotdot
           else if !rooted then
             let out2 := '.' :: '.' :: (if out.length > 0 then '/' :: out else out)
             cleanLoop rooted rest2 false out2 out2.length
           else cleanLoop rooted rest2 false out dotdot)
        else elem
      | _ => elem

/-- Model of `filepath.Clean` on Unix. -/
def Clean (path : String) : String :=
  match path.data with
  | [] => "."
  | c :: rest =>
    let out :=
      if c = '/' then cleanLoop true rest false ['/'] 1
      else cleanLoop false (c :: rest) false [] 0
    if out.isEmpty then "." else ⟨out.reverse⟩

/-- Model of `filepath.Join` on Unix: empty elements are ignored, the rest is joined with
`/` and cleaned. -/
def Join (elem : List String) : String :=
  match elem.dropWhile (fun e => e = "") with
  | [] => ""
  | es => Clean ("/".intercalate es)

end Filepath

namespace Network

open Go

/-- What the code uses of a parsed `*url.URL`: the `Host` field and the text
given by `String()`. -/
structure URL where
  Host : String
  text : String
deriving DecidableEq, Repr

/-- The fields of `common.RunnerCredentials` read by `newClient` (the type is
declared in package `common`, outside the source files). -/
structure RunnerCredentials where
  URL : String
  TLSCAFile : String
  TLSSkipVerify : Bool
deriving DecidableEq, Repr

/-- A certificate pool: the certificates it holds. -/
abbrev CertPool := List String

/-- The fields of `tls.Config` set by `createTransport`. -/
structure TLSConfig where
  MinVersion : Nat
  InsecureSkipVerify : Bool
  RootCAs : Option CertPool
deriving DecidableEq, Repr

/-- The constant `tls.VersionTLS10`. -/
def VersionTLS10 : Nat := 0x0301

/-- The `http.Transport` built by `createTransport`; durations are in seconds. -/
structure Transport where
  ProxyFromEnvironment : Bool
  DialTimeout : Nat
  DialKeepAlive : Nat
  TLSHandshakeTimeout : Nat
  TLSClientConfig : TLSConfig
deriving DecidableEq, Repr

/-- Error of `ioutil.ReadFile`, classified by `os.IsNotExist`. -/
inductive ReadError where
  | notExist (msg : String)
  | other (msg : String)
deriving DecidableEq, Repr

/-- The surroundings of a client: the file system, the clock and the PEM parser.
`stat path` is the modification time reported by `os.Stat` (`none` on error),
`pemCerts data` the certificates `AppendCertsFromPEM` finds in `data`. Instants
are integers. -/
structure Env where
  stat : String → Option Int
  readFile : String → Except ReadError String
  now : Int
  pemCerts : String → List String

/-- The `client` struct; `Transport` is the field of the embedded `http.Client`. -/
structure client where
  Transport : Option Transport
  url : URL
  caFile : String
  skipVerify : Bool
  updateTime : Int
deriving DecidableEq, Repr

/-- The TLS configuration assembled by `createTransport` (client.go lines 44-66);
the log lines are left out. -/
def tlsConfigOf (env : Env) (n : client) : TLSConfig :=
  let tlsConfig : TLSConfig :=
    { MinVersion := VersionTLS10, InsecureSkipVerify := n.skipVerify, RootCAs := none }
  if n.caFile ≠ "" then
    match env.readFile n.caFile with
    | .ok data =>
      let pool : CertPool := []
      let found := env.pemCerts data
      if !found.isEmpty then { tlsConfig with RootCAs := some (pool ++ found) }
      else tlsConfig
    | .error _ => tlsConfig
  else tlsConfig

/-- Model of `client.createTransport`. -/
def client.createTransport (env : Env) (n : client) : client :=
  let transport : Network.Transport :=
    { ProxyFromEnvironment := true
      DialTimeout := 30
      DialKeepAlive := 30
      TLSHandshakeTimeout := 10
      TLSClientConfig := tlsConfigOf env n }
  { n with Transport := some transport }

/-- Model of `client.ensureTlsConfig`. -/
def client.ensureTlsConfig (env : Env) (n : client) : client :=
  let n :=
    match env.stat n.caFile with
    | some modTime => if n.updateTime < modTime then { n with Transport := none } else n
    | none => n
  match n.Transport with
  | none => client.createTransport env { n with updateTime := env.now }
  | some _ => n

/-- Go's `strings.TrimRight(s, "/")`. -/
def trimRightSlash (s : String) : String :=
  ⟨(s.data.reverse.dropWhile (fun c => c = '/')).reverse⟩

/-- First element of `strings.Split(s, ":")`: the text before the first colon. -/
def splitColonFirst (s : String) : String := ⟨s.data.takeWhile (fun c => c ≠ ':')⟩

/-- Model of `newClient`. `parse` is `url.Parse`, `CertificateDirectory` the package
variable of that name. -/
def newClient (parse : String → Except String URL) (CertificateDirectory : String)
    (config : RunnerCredentials) : Except String client :=
  match parse (trimRightSlash config.URL ++ "/api/v1/") with
  | .error e => .error e
  | .ok url =>
    let c : client :=
      { Transport := none, url := url, skipVerify := config.TLSSkipVerify,
        caFile := config.TLSCAFile, updateTime := 0 }
    if CertificateDirectory ≠ "" && c.caFile = "" then
      let host := splitColonFirst url.Host
      .ok { c with caFile := Filepath.Join [CertificateDirectory, host ++ ".crt"] }
    else .ok c

/-- An `*http.Request` as far as `do` shapes it. -/
structure Request where
  Method : String
  URL : String
  Body : String
  Header : List (String × String)
deriving DecidableEq, Repr

/-- An `*http.Response` as far as `do` reads it. -/
structure Response where
  StatusCode : Int
  Status : String
  Body : String
deriving DecidableEq, Repr

/-- Model of `http.Header.Set`. -/
def headerSet (h : List (String × String)) (key value : String) : List (String × String) :=
  h.filter (fun kv => kv.1 ≠ key) ++ [(key, value)]

/-- The libraries and the network behind `client.do`, for request values of type
`Req` and response targets of type `Resp`: `resolve` is `(*url.URL).Parse`, `marshal`
is `json.Marshal`, `newRequest` is `http.NewRequest`, `roundTrip` is
`http.Client.Do` with the client's transport, and `decode body target` is
`json.NewDecoder(body).Decode(target)`, giving the new content of the target and
the error. -/
structure Net (Req Resp : Type) where
  resolve : URL → String → Except String URL
  marshal : Req → Except String String
  newRequest : String → String → String → Except String Request
  roundTrip : Option Transport → Request → Except String Response
  decode : String → Resp → Resp × Option String

/-- What `client.do` did to the outside, in order. -/
inductive Event where
  /-- Model of `ensureTlsConfig` was called. -/
  | ensureTls
  /-- The request was handed to `http.Client.Do`. -/
  | send (req : Request)
  /-- The response body was handed to the JSON decoder. -/
  | decode (body : String)
deriving DecidableEq, Repr

/-- Outcome of `client.do`: the two return values, the client and the response
target afterwards, and the events. -/
structure DoResult (Resp : Type) where
  status : Int
  message : String
  n : client
  response : Option Resp
  events : List Event

/-- The body of the request: empty for a nil `request`, otherwise its JSON text
(client.go lines 88-93). -/
def marshalBody {Req Resp : Type} (net : Net Req Resp) (request : Option Req) :
    Except String String :=
  match request with
  | none => .ok ""
  | some r => net.marshal r

/-- The content type is set only when there is a request value (client.go lines
100-102). -/
def withContentType {Req : Type} (request : Option Req) (req : Request) : Request :=
  if request.isSome then
    { req with Header := headerSet req.Header "Content-Type" "application/json" }
  else req

/-- Model of `client.do`. A nil `request` or `response` is `none`. -/
def client.do {Req Resp : Type} (net : Net Req Resp) (env : Env) (n : client)
    (uri method : String) (statusCode : Int) (request : Option Req)
    (response : Option Resp) : DoResult Resp :=
  match net.resolve n.url uri with
  | .error e => ⟨-1, e, n, response, []⟩
  | .ok url =>
    match marshalBody net request with
    | .error e => ⟨-1, "failed to marshal project object: " ++ e, n, response, []⟩
    | .ok body =>
      match net.newRequest method url.text body with
      | .error e => ⟨-1, "failed to create NewRequest: " ++ e, n, response, []⟩
      | .ok req =>
        let req := withContentType request req
        let n := n.ensureTlsConfig env
        match net.roundTrip n.Transport req with
        | .error e =>
          ⟨-1, "couldn't execute " ++ req.Method ++ " against " ++ req.URL ++ ": " ++ e,
            n, response, [.ensureTls, .send req]⟩
        | .ok res =>
          if res.StatusCode = statusCode then
            match response with
            | some target =>
              let d := net.decode res.Body target
              match d.2 with
              | some e =>
                ⟨-1, "Error decoding json payload " ++ e, n, some d.1,
                  [.ensureTls, .send req, .decode res.Body]⟩
              | none =>
                ⟨res.StatusCode, res.Status, n, some d.1,
                  [.ensureTls, .send req, .decode res.Body]⟩
            | none => ⟨res.StatusCode, res.Status, n, response, [.ensureTls, .send req]⟩
          else ⟨res.StatusCode, res.Status, n, response, [.ensureTls, .send req]⟩

/-- A server that answers every request with 404, behind libraries that never
fail; requests and response targets are strings. -/
def notFoundNet : Net String String :=
  { resolve := fun base uri => .ok ⟨base.Host, base.text ++ uri⟩
    marshal := fun r => .ok r
    newRequest := fun method url body => .ok ⟨method, url, body, []⟩
    roundTrip := fun _ _ => .ok ⟨404, "404 Not Found", "null"⟩
    decode := fun body _ => (body, none) }

/-- The libraries of `notFoundNet`, with a `url.Parse` that rejects every path. -/
def unresolvableNet : Net String String :=
  { notFoundNet with resolve := fun _ _ => .error "parse error" }

/-- A file system in which every path was last modified at instant 100 and holds
one certificate, read at the instant `now`. -/
def caModifiedAt100 (now : Int) : Env :=
  { stat := fun _ => some 100
    readFile := fun _ => .ok "pem"
    now := now
    pemCerts := fun _ => ["cert"] }

/-- A client as `newClient` leaves it, with a CA file configured. -/
def freshClient : client :=
  { Transport := none
    url := ⟨"ci.example.com", "https://ci.example.com/api/v1/"⟩
    caFile := "/etc/certs/ci.example.com.crt"
    skipVerify := false
    updateTime := 0 }

/-- A stand-in for `url.Parse` that knows one address, with an IPv6 literal host. -/
def parseLoopback (rawurl : String) : Except String URL :=
  if rawurl = "https://[::1]:8443/api/v1/" then .ok ⟨"[::1]:8443", rawurl⟩
  else .error "parse error"

end Network

/-! ## Lemmas on the scanner -/

namespace Fmt

open Go

theorem scanVerb_count (nargs : Nat) (format : List Char) (s : ss) (numProcessed : Nat)
    (r : Nat × ss × Nat) (h : scanVerb nargs format s numProcessed = some r)
    (hn : numProcessed ≤ nargs) : r.2.2 ≤ nargs := by
  unfold scanVerb at h
  dsimp only at h
  split at h
  · simp at h
  · split at h
    · simp at h
    · split at h
      · simp only [Option.map_eq_some'] at h
        obtain ⟨_, _, rfl⟩ := h
        exact hn
      · split at h
        · simp at h
        · simp only [Option.map_eq_some'] at h
          obtain ⟨_, _, rfl⟩ := h
          dsimp only
          omega

theorem doScanfStep_count (nargs : Nat) (c0 : Char) (format : List Char) (s : ss)
    (numProcessed : Nat) (r : Nat × ss × Nat)
    (h : doScanfStep nargs c0 format s numProcessed = some r)
    (hn : numProcessed ≤ nargs) : r.2.2 ≤ nargs := by
  unfold doScanfStep at h
  split at h
  · simp at h
  · simp only [Option.some.injEq] at h
    subst h
    exact hn
  · split at h
    · simp at h
    · exact scanVerb_count _ _ _ _ _ h hn
  · split at h
    · simp at h
    · exact scanVerb_count _ _ _ _ _ h hn

theorem doScanf_nil (nargs skip : Nat) (s : ss) (n : Nat) :
    doScanf nargs [] skip s n = n := by
  cases skip <;> rfl

theorem doScanf_skip (nargs : Nat) (c0 : Char) (format : List Char) (skip : Nat) (s : ss)
    (n : Nat) :
    doScanf nargs (c0 :: format) (skip + 1) s n = doScanf nargs format skip s n := rfl

theorem doScanf_step (nargs : Nat) (c0 : Char) (format : List Char) (s : ss) (n : Nat) :
    doScanf nargs (c0 :: format) 0 s n
      = match doScanfStep nargs c0 format s n with
        | none => n
        | some (k, s2, n2) => doScanf nargs format k s2 n2 := rfl

theorem doScanf_le (nargs : Nat) (format : List Char) :
    ∀ (skip : Nat) (s : ss) (numProcessed : Nat), numProcessed ≤ nargs →
      doScanf nargs format skip s numProcessed ≤ nargs := by
  induction format with
  | nil => intro skip s n hn; rw [doScanf_nil]; exact hn
  | cons c0 format ih =>
    intro skip s n hn
    cases skip with
    | succ k => rw [doScanf_skip]; exact ih k s n hn
    | zero =>
      rw [doScanf_step]
      cases h : doScanfStep nargs c0 format s n with
      | none => exact hn
      | some r => exact ih _ _ _ (doScanfStep_count _ _ _ _ _ _ h hn)

theorem Sscanf_le_one (str format : String) : Sscanf str format ≤ 1 :=
  doScanf_le 1 format.data 0 _ 0 (by omega)

theorem scanVerb_ge (nargs : Nat) (format : List Char) (s : ss) (numProcessed : Nat)
    (r : Nat × ss × Nat) (h : scanVerb nargs format s numProcessed = some r) :
    numProcessed ≤ r.2.2 := by
  unfold scanVerb at h
  dsimp only at h
  split at h
  · simp at h
  · split at h
    · simp at h
    · split at h
      · simp only [Option.map_eq_some'] at h
        obtain ⟨_, _, rfl⟩ := h
        exact Nat.le_refl _
      · split at h
        · simp at h
        · simp only [Option.map_eq_some'] at h
          obtain ⟨_, _, rfl⟩ := h
          dsimp only
          omega

theorem doScanfStep_ge (nargs : Nat) (c0 : Char) (format : List Char) (s : ss)
    (numProcessed : Nat) (r : Nat × ss × Nat)
    (h : doScanfStep nargs c0 format s numProcessed = some r) : numProcessed ≤ r.2.2 := by
  unfold doScanfStep at h
  split at h
  · simp at h
  · simp only [Option.some.injEq] at h
    subst h
    exact Nat.le_refl _
  · split at h
    · simp at h
    · exact scanVerb_ge _ _ _ _ _ h
  · split at h
    · simp at h
    · exact scanVerb_ge _ _ _ _ _ h

theorem doScanf_ge (nargs : Nat) (format : List Char) :
    ∀ (skip : Nat) (s : ss) (numProcessed : Nat),
      numProcessed ≤ doScanf nargs format skip s numProcessed := by
  induction format with
  | nil => intro skip s n; rw [doScanf_nil]
  | cons c0 format ih =>
    intro skip s n
    cases skip with
    | succ k => rw [doScanf_skip]; exact ih k s n
    | zero =>
      rw [doScanf_step]
      cases h : doScanfStep nargs c0 format s n with
      | none => exact Nat.le_refl _
      | some r => exact Nat.le_trans (doScanfStep_ge _ _ _ _ _ _ h) (ih _ _ _)

theorem scanVerb_nargs (a b : Nat) (format : List Char) (s : ss) (numProcessed : Nat)
    (ha : numProcessed < a) (hb : numProcessed < b) :
    scanVerb a format s numProcessed = scanVerb b format s numProcessed := by
  unfold scanVerb
  simp [Nat.not_le.mpr ha, Nat.not_le.mpr hb]

theorem doScanfStep_nargs (a b : Nat) (c0 : Char) (format : List Char) (s : ss)
    (numProcessed : Nat) (ha : numProcessed < a) (hb : numProcessed < b) :
    doScanfStep a c0 format s numProcessed = doScanfStep b c0 format s numProcessed := by
  unfold doScanfStep
  split <;> simp [scanVerb_nargs a b format _ numProcessed ha hb]

/-- A template that fills the first of several operands fills the single one. -/
theorem doScanf_one_of_many (nargs : Nat) (hn : 1 ≤ nargs) (format : List Char) :
    ∀ (skip : Nat) (s : ss), 1 ≤ doScanf nargs format skip s 0 →
      doScanf 1 format skip s 0 = 1 := by
  induction format with
  | nil => intro skip s h; rw [doScanf_nil] at h; omega
  | cons c0 format ih =>
    intro skip s h
    cases skip with
    | succ k => rw [doScanf_skip] at h ⊢; exact ih k s h
    | zero =>
      rw [doScanf_step] at h ⊢
      rw [doScanfStep_nargs 1 nargs c0 format s 0 (by omega) (by omega)]
      cases hstep : doScanfStep nargs c0 format s 0 with
      | none => rw [hstep] at h; simp at h
      | some r =>
        rw [hstep] at h
        obtain ⟨k, s2, n2⟩ := r
        simp only at h ⊢
        have hle : n2 ≤ 1 := by
          have h1 : doScanfStep 1 c0 format s 0 = some (k, s2, n2) := by
            rw [doScanfStep_nargs 1 nargs c0 format s 0 (by omega) (by omega)]; exact hstep
          exact doScanfStep_count 1 c0 format s 0 _ h1 (by omega)
        by_cases h0 : n2 = 0
        · subst h0; exact ih k s2 h
        · have h1 : n2 = 1 := by omega
          subst h1
          exact Nat.le_antisymm (doScanf_le 1 format k s2 1 (Nat.le_refl _))
            (doScanf_ge 1 format k s2 1)

theorem Sscanf_eq_one_of_SscanfN (nargs : Nat) (str format : String)
    (h : 1 ≤ SscanfN nargs str format) : Sscanf str format = 1 := by
  have hn : 1 ≤ nargs := by
    have := doScanf_le nargs format.data 0 ⟨str.data, 0, hugeWid⟩ 0 (Nat.zero_le _)
    unfold SscanfN at h
    omega
  exact doScanf_one_of_many nargs hn format.data 0 _ h

theorem placeholders_cons_ne (c : Char) (rest : List Char) (hc : c ≠ '%') :
    placeholders (c :: rest) = placeholders rest := by
  cases rest with
  | nil => simp [placeholders, hc]
  | cons d rest2 => simp [placeholders, hc]

theorem advance_nil (skip : Nat) (run : Option (Nat × Bool)) (i : Nat) (s : ss) :
    advance [] skip run i s = advanceEnd run i s := by
  cases skip <;> rfl

theorem advance_skip (fmtc : Char) (rest : List Char) (skip : Nat)
    (run : Option (Nat × Bool)) (i : Nat) (s : ss) :
    advance (fmtc :: rest) (skip + 1) run i s = advance rest skip run i s := rfl

theorem advance_step (fmtc : Char) (rest : List Char) (run : Option (Nat × Bool)) (i : Nat)
    (s : ss) :
    advance (fmtc :: rest) 0 run i s
      = match advanceStep fmtc rest run i s with
        | .stop r => r
        | .go skip run i s => advance rest skip run i s := rfl

theorem advanceEnd_ok (run : Option (Nat × Bool)) (i : Nat) (s : ss) (j : Nat) (s1 : ss)
    (h : advanceEnd run i s = .ok j s1) : j = i := by
  unfold advanceEnd at h
  split at h
  · simp only [Adv.ok.injEq] at h
    exact h.1.symm
  · split at h
    · simp at h
    · simp only [Adv.ok.injEq] at h
      exact h.1.symm

/-- On a template without placeholders one iteration of `advance` either stops
without a count or goes on past a character that is no placeholder. -/
theorem advanceStep_no_placeholder (fmtc : Char) (rest : List Char)
    (run : Option (Nat × Bool)) (i : Nat) (s : ss) (hp : placeholders (fmtc :: rest) = 0) :
    (∀ j s1, advanceStep fmtc rest run i s ≠ .stop (.ok j s1))
    ∧ (∀ skip run1 i1 s1, advanceStep fmtc rest run i s = .go skip run1 i1 s1 →
        skip ≤ rest.length ∧ placeholders (rest.drop skip) = 0 ∧ i1 = i + 1 + skip) := by
  unfold advanceStep
  by_cases hsp : isSpace fmtc = true
  · have hne : fmtc ≠ '%' := by
      intro he; subst he; exact absurd hsp (by decide)
    rw [placeholders_cons_ne fmtc rest hne] at hp
    simp only [hsp, if_true]
    refine ⟨fun j s1 => by simp, ?_⟩
    intro skip run1 i1 s1 h
    simp only [AdvStep.go.injEq] at h
    obtain ⟨rfl, _, rfl, _⟩ := h
    exact ⟨Nat.zero_le _, by simpa using hp, rfl⟩
  · simp only [hsp, Bool.false_eq_true, if_false]
    split
    · exact ⟨fun j s1 => by simp, fun skip run1 i1 s1 h => by simp at h⟩
    · by_cases hpc : fmtc = '%'
      · subst hpc
        simp only [if_true]
        cases rest with
        | nil => simp [placeholders] at hp
        | cons nextc rest2 =>
          by_cases hnx : nextc = '%'
          · subst hnx
            have hp2 : placeholders rest2 = 0 := by simpa [placeholders] using hp
            simp only [ne_eq, not_true_eq_false, if_false]
            split
            · exact ⟨fun j s1 => by simp, fun skip run1 i1 s1 h => by simp at h⟩
            · split
              · exact ⟨fun j s1 => by simp, fun skip run1 i1 s1 h => by simp at h⟩
              · refine ⟨fun j s1 => by simp, ?_⟩
                intro skip run1 i1 s1 h
                simp only [AdvStep.go.injEq] at h
                obtain ⟨rfl, _, rfl, _⟩ := h
                exact ⟨by simp, by simpa using hp2, rfl⟩
          · simp [placeholders, hnx] at hp
      · rw [placeholders_cons_ne fmtc rest hpc] at hp
        simp only [hpc, if_false]
        split
        · exact ⟨fun j s1 => by simp, fun skip run1 i1 s1 h => by simp at h⟩
        · split
          · exact ⟨fun j s1 => by simp, fun skip run1 i1 s1 h => by simp at h⟩
          · refine ⟨fun j s1 => by simp, ?_⟩
            intro skip run1 i1 s1 h
            simp only [AdvStep.go.injEq] at h
            obtain ⟨rfl, _, rfl, _⟩ := h
            exact ⟨Nat.zero_le _, by simpa using hp, rfl⟩

/-- On a template without placeholders `advance` stops only at the end. -/
theorem advance_ok_length (format : List Char) :
    ∀ (skip : Nat) (run : Option (Nat × Bool)) (i : Nat) (s : ss) (j : Nat) (s1 : ss),
      skip ≤ format.length → placeholders (format.drop skip) = 0 →
      advance format skip run i s = .ok j s1 → j + skip = i + format.length := by
  induction format with
  | nil =>
    intro skip run i s j s1 hs _ h
    rw [advance_nil] at h
    have := advanceEnd_ok run i s j s1 h
    simp only [List.length_nil, Nat.le_zero_eq] at hs ⊢
    omega
  | cons fmtc rest ih =>
    intro skip run i s j s1 hs hp h
    simp only [List.length_cons] at hs ⊢
    cases skip with
    | succ k =>
      rw [advance_skip] at h
      have := ih k run i s j s1 (by omega) (by simpa using hp) h
      omega
    | zero =>
      rw [advance_step] at h
      simp only [List.drop_zero] at hp
      obtain ⟨hstop, hgo⟩ := advanceStep_no_placeholder fmtc rest run i s hp
      cases hst : advanceStep fmtc rest run i s with
      | stop r =>
        rw [hst] at h
        simp only at h
        subst h
        exact absurd hst (hstop j s1)
      | go k run1 i1 s2 =>
        rw [hst] at h
        simp only at h
        obtain ⟨hk, hpk, hi1⟩ := hgo k run1 i1 s2 hst
        have := ih k run1 i1 s2 j s1 hk hpk h
        omega

theorem doScanf_skip_all (nargs : Nat) (format : List Char) :
    ∀ (skip : Nat) (s : ss) (n : Nat), format.length ≤ skip →
      doScanf nargs format skip s n = n := by
  induction format with
  | nil => intro skip s n _; rw [doScanf_nil]
  | cons c0 format ih =>
    intro skip s n h
    cases skip with
    | zero => simp at h
    | succ k =>
      rw [doScanf_skip]
      exact ih k s n (by simpa using h)

/-- A template without placeholders fills no operand. -/
theorem doScanf_no_placeholder (nargs : Nat) :
    ∀ (m : Nat) (format : List Char), format.length ≤ m → placeholders format = 0 →
      ∀ (s : ss) (n : Nat), doScanf nargs format 0 s n = n := by
  intro m
  induction m with
  | zero =>
    intro format hlen _ s n
    have : format = [] := List.length_eq_zero.mp (Nat.le_zero.mp hlen)
    subst this
    rw [doScanf_nil]
  | succ m ih =>
    intro format hlen hp s n
    cases format with
    | nil => rw [doScanf_nil]
    | cons c0 format =>
      simp only [List.length_cons] at hlen
      rw [doScanf_step]
      unfold doScanfStep
      cases hadv : advance (c0 :: format) 0 none 0 s with
      | error => rfl
      | ok j s1 =>
        have hj := advance_ok_length (c0 :: format) 0 none 0 s j s1 (Nat.zero_le _)
          (by simpa using hp) hadv
        simp only [List.length_cons, Nat.zero_add, Nat.add_zero] at hj
        subst hj
        simp only
        exact doScanf_skip_all nargs format _ s1 n (Nat.le_refl _)
      | mismatch s1 =>
        by_cases hc0 : c0 = '%'
        · subst hc0
          cases format with
          | nil => simp [placeholders] at hp
          | cons d rest =>
            by_cases hd : d = '%'
            · subst hd
              have hp2 : placeholders rest = 0 := by simpa [placeholders] using hp
              have hsv : ∀ r, scanVerb nargs ('%' :: rest) s1 n = some r →
                  r.1 = 1 ∧ r.2.2 = n := by
                intro r hr
                have hpn : parsenum ('%' :: rest) 0 false 0 = (0, false, 0, false) := by
                  cases rest with
                  | nil => rfl
                  | cons e tl => simp [parsenum]
                unfold scanVerb at hr
                simp only [hpn, verbAt, List.drop_zero] at hr
                split at hr
                · simp at hr
                · simp only [Bool.false_and, Bool.false_eq_true, if_false, if_true,
                    Option.map_eq_some'] at hr
                  obtain ⟨_, _, rfl⟩ := hr
                  exact ⟨rfl, rfl⟩
              simp only [ne_eq, not_true_eq_false, if_false]
              cases hv : scanVerb nargs ('%' :: rest) s1 n with
              | none => rfl
              | some r =>
                obtain ⟨k, s2, n2⟩ := r
                obtain ⟨hk, hn2⟩ := hsv _ hv
                simp only at hk hn2
                subst hk hn2
                simp only
                rw [doScanf_skip]
                simp only [List.length_cons] at hlen
                exact ih rest (by omega) hp2 s2 n2
            · simp [placeholders, hd] at hp
        · simp [hc0]

theorem Sscanf_no_placeholder (str format : String) (hf : placeholders format.data = 0) :
    Sscanf str format = 0 :=
  doScanf_no_placeholder 1 _ format.data (Nat.le_refl _) hf _ 0

end Fmt

/-! ## Theorems: the docker-machine wrapper -/

namespace DockerHelpers

open Go

theorem foldl_append_flag (opts : Strings) (acc : Strings) :
    opts.foldl (fun args opt => args ++ ["--" ++ opt]) acc
      = acc ++ opts.map (fun o => "--" ++ o) := by
  induction opts generalizing acc with
  | nil => simp
  | cons o os ih => simp [List.foldl_cons, ih, List.append_assoc]

theorem createArgs_eq (driver name : String) (opts : Strings) :
    createArgs driver name opts
      = ["create", "--driver", driver] ++ opts.map (fun o => "--" ++ o) ++ [name] := by
  simp [createArgs, foldl_append_flag]

/-- C3: `Create` spawns docker-machine exactly once, with the argument vector
`create --driver <driver>`, then `--<opt>` for each option in order (one token per
option), then `<name>`; the vector has `4 + |opts|` entries, and the error returned
is `nil` iff the process run reported none. -/
theorem Create_argument_vector (tool : Tool) (w : Trace) (driver name : String)
    (opts : Strings) :
    (machineCommand.Create tool w driver name opts).2
        = w ++ [⟨"docker-machine",
            ["create", "--driver", driver] ++ opts.map (fun o => "--" ++ o) ++ [name],
            .inherit⟩]
    ∧ (["create", "--driver", driver] ++ opts.map (fun o => "--" ++ o) ++ [name]).length
        = 4 + opts.length
    ∧ ((machineCommand.Create tool w driver name opts).1 = none ↔
        (tool w ⟨"docker-machine",
            ["create", "--driver", driver] ++ opts.map (fun o => "--" ++ o) ++ [name],
            .inherit⟩).err = none)
    ∧ (machineCommand.Create tool w "amazonec2" "node-1" ["opt1=a"]).2
        = w ++ [⟨"docker-machine",
            ["create", "--driver", "amazonec2", "--opt1=a", "node-1"], .inherit⟩] := by
  refine ⟨?_, ?_, ?_, ?_⟩
  · simp [machineCommand.Create, exec, createArgs_eq]
  · simp; omega
  · simp [machineCommand.Create, exec, createArgs_eq]
  · simp [machineCommand.Create, exec, createArgs]

theorem terminatedLines_of_eof (input : List Char) :
    ∀ cur : List Char, (readString '\n' input).2.2 = true → terminatedLines input cur = [] := by
  induction input with
  | nil => intro cur _; rfl
  | cons c cs ih =>
    intro cur h
    by_cases hc : c = '\n'
    · simp [readString, hc] at h
    · simp only [readString, hc, if_false] at h
      simp only [terminatedLines, hc, if_false]
      exact ih _ h

theorem terminatedLines_of_line (input : List Char) :
    ∀ cur : List Char, (readString '\n' input).2.2 = false →
      terminatedLines input cur
          = ⟨cur.reverse ++ (readString '\n' input).1⟩
            :: terminatedLines (readString '\n' input).2.1 []
        ∧ (readString '\n' input).2.1.length < input.length := by
  induction input with
  | nil => intro cur h; simp [readString] at h
  | cons c cs ih =>
    intro cur h
    by_cases hc : c = '\n'
    · simp [readString, terminatedLines, hc]
    · simp only [readString, hc, if_false] at h
      obtain ⟨h1, h2⟩ := ih (c :: cur) h
      simp only [readString, hc, if_false, terminatedLines, h1, List.length_cons]
      refine ⟨by simp, by omega⟩

theorem listLoop_eq (nodeFilter : String) :
    ∀ (fuel : Nat) (input : List Char) (machines : Strings), input.length < fuel →
      listLoop nodeFilter fuel input machines
        = machines ++ (((terminatedLines input []).map TrimSpace).filter (fun l => l ≠ "")).filter
            (fun l => Fmt.Sscanf l nodeFilter = 1) := by
  intro fuel
  induction fuel with
  | zero => intro input machines h; omega
  | succ fuel ih =>
    intro input machines h
    rw [listLoop]
    dsimp only
    cases he : (readString '\n' input).2.2 with
    | true => simp [terminatedLines_of_eof input [] he]
    | false =>
      obtain ⟨h1, h2⟩ := terminatedLines_of_line input [] he
      have hlen : (readString '\n' input).2.1.length < fuel := by omega
      rw [h1]
      simp only [List.reverse_nil, List.nil_append, List.map_cons, Bool.false_eq_true,
        if_false]
      by_cases hb : TrimSpace ⟨(readString '\n' input).1⟩ = ""
      · simp [hb, ih _ _ hlen, List.filter_cons]
      · by_cases hs : Fmt.Sscanf (TrimSpace ⟨(readString '\n' input).1⟩) nodeFilter = 1
        · simp [hb, hs, ih _ _ hlen, List.filter_cons]
        · simp [hb, hs, ih _ _ hlen, List.filter_cons]

/-- C1: on the captured output `runner-a`, newline, `runner-b` (no newline after
the last line) and the template `runner-%s`, `List` returns only `runner-a` with a
nil error: `ReadString` reports `io.EOF` together with the last line, and the loop
returns before looking at it. -/
theorem List_drops_unterminated_last_line :
    machineCommand.List (fun _ _ => ⟨"runner-a\nrunner-b", none⟩) [] "runner-%s"
      = ((["runner-a"], none), [⟨"docker-machine", ["ls", "-q"], .capture⟩]) := by
  decide

/-- C2, as stated, fails: with the template `%s %s` the line `a b` is kept by
`List`, because `Sscanf` has one operand and reports the count 1 before it meets
the second placeholder. -/
theorem List_keeps_line_of_two_placeholder_template :
    Fmt.Sscanf "a b" "%s %s" = 1
    ∧ (machineCommand.List (fun _ _ => ⟨"a b\n", none⟩) [] "%s %s").1
        = (["a b"], none) := by
  decide

theorem allLines_eq_terminatedLines (input : List Char) :
    ∀ cur : List Char, (∀ c, input.getLast? = some c → c = '\n') → (input = [] → cur = []) →
      allLines input cur = terminatedLines input cur := by
  induction input with
  | nil =>
    intro cur _ hcur
    simp [allLines, terminatedLines, hcur rfl]
  | cons c cs ih =>
    intro cur hlast _
    have hcs : ∀ d, cs.getLast? = some d → d = '\n' := by
      intro d hd
      apply hlast d
      cases cs with
      | nil => simp at hd
      | cons e es => simpa [List.getLast?_cons_cons] using hd
    by_cases hc : c = '\n'
    · simp only [allLines, terminatedLines, hc, if_true]
      rw [ih [] hcs (fun _ => rfl)]
    · simp only [allLines, terminatedLines, hc, if_false]
      apply ih (c :: cur) hcs
      intro hnil
      subst hnil
      exact absurd (hlast c rfl) hc

/-- C2, amended: `List` keeps a line iff `Sscanf`, called with its single string
operand, returns the count 1. When the listing command succeeds and its output is
empty or ends with a newline, `List` returns in order the trimmed non-blank lines
with that count. The count never exceeds 1. For every template with zero
placeholders the result is empty: every line is excluded. For a template from which
a line yields a first token when scanned with any number of operands, two tokens
with two operands included, the count with the single operand is 1 and the line is
kept. -/
theorem List_keeps_iff_count_one (tool : Tool) (w : Trace) (nodeFilter : String)
    (h : (tool w ⟨"docker-machine", ["ls", "-q"], .capture⟩).err = none) :
    ((∀ c, (tool w ⟨"docker-machine", ["ls", "-q"], .capture⟩).data.data.getLast? = some c →
          c = '\n') →
        (machineCommand.List tool w nodeFilter).1
          = ((candidateLines (tool w ⟨"docker-machine", ["ls", "-q"], .capture⟩).data).filter
              (fun l => Fmt.Sscanf l nodeFilter = 1), none))
    ∧ (∀ l : String, Fmt.Sscanf l nodeFilter ≤ 1)
    ∧ (Fmt.placeholders nodeFilter.data = 0 →
        (machineCommand.List tool w nodeFilter).1 = ([], none))
    ∧ ((∀ c, (tool w ⟨"docker-machine", ["ls", "-q"], .capture⟩).data.data.getLast? = some c →
          c = '\n') →
        ∀ l ∈ candidateLines (tool w ⟨"docker-machine", ["ls", "-q"], .capture⟩).data,
          ∀ nargs : Nat, 1 ≤ Fmt.SscanfN nargs l nodeFilter →
            Fmt.Sscanf l nodeFilter = 1 ∧ l ∈ (machineCommand.List tool w nodeFilter).1.1) := by
  have hlen : (tool w ⟨"docker-machine", ["ls", "-q"], .capture⟩).data.data.length
      < (tool w ⟨"docker-machine", ["ls", "-q"], .capture⟩).data.length + 1 :=
    Nat.lt_succ_self _
  have raw : (machineCommand.List tool w nodeFilter).1
      = (((((terminatedLines (tool w ⟨"docker-machine", ["ls", "-q"], .capture⟩).data.data
            []).map TrimSpace).filter (fun l => l ≠ "")).filter
          (fun l => Fmt.Sscanf l nodeFilter = 1)), none) := by
    unfold machineCommand.List exec
    simp only [h]
    rw [listLoop_eq _ _ _ _ hlen]
    simp
  have key : (∀ c, (tool w ⟨"docker-machine", ["ls", "-q"], .capture⟩).data.data.getLast?
        = some c → c = '\n') →
      (machineCommand.List tool w nodeFilter).1
        = ((candidateLines (tool w ⟨"docker-machine", ["ls", "-q"], .capture⟩).data).filter
            (fun l => Fmt.Sscanf l nodeFilter = 1), none) := by
    intro hterm
    rw [raw]
    unfold candidateLines
    rw [allLines_eq_terminatedLines _ [] hterm (fun _ => rfl)]
  refine ⟨key, fun l => Fmt.Sscanf_le_one l nodeFilter, fun hf => ?_, ?_⟩
  · rw [raw]
    simp [Fmt.Sscanf_no_placeholder _ nodeFilter hf]
  · intro hterm l hl nargs hn
    have h1 := Fmt.Sscanf_eq_one_of_SscanfN nargs l nodeFilter hn
    refine ⟨h1, ?_⟩
    rw [key hterm]
    simp [hl, h1]

/-- Witness for C2, amended: the listing `web-1`, `runner-a` under `runner-%s`; the
line `a b` under `%s %s`, which yields two tokens with two operands; and the
template `100%%`, which has no placeholder. -/
theorem List_keeps_iff_count_one_witness :
    (machineCommand.List (fun _ _ => ⟨"web-1\nrunner-a\n", none⟩) [] "runner-%s").1
        = ((candidateLines "web-1\nrunner-a\n").filter
            (fun l => Fmt.Sscanf l "runner-%s" = 1), none)
    ∧ Fmt.SscanfN 2 "a b" "%s %s" = 2
    ∧ Fmt.Sscanf "a b" "%s %s" = 1
    ∧ "a b" ∈ (machineCommand.List (fun _ _ => ⟨"x\na b\n", none⟩) [] "%s %s").1.1
    ∧ (machineCommand.List (fun _ _ => ⟨"100%\n", none⟩) [] "100%%").1 = ([], none) :=
  ⟨(List_keeps_iff_count_one (fun _ _ => ⟨"web-1\nrunner-a\n", none⟩) [] "runner-%s"
      rfl).1 (by decide),
    by decide,
    ((List_keeps_iff_count_one (fun _ _ => ⟨"x\na b\n", none⟩) [] "%s %s"
      rfl).2.2.2 (by decide) "a b" (by decide) 2 (by decide)).1,
    ((List_keeps_iff_count_one (fun _ _ => ⟨"x\na b\n", none⟩) [] "%s %s"
      rfl).2.2.2 (by decide) "a b" (by decide) 2 (by decide)).2,
    (List_keeps_iff_count_one (fun _ _ => ⟨"100%\n", none⟩) [] "100%%" rfl).2.2.1
      (by decide)⟩

/-- C10: `get` runs docker-machine once with the given arguments, capturing the
output. It returns an error iff the process reported one or the output is blank
after trimming; a blank output gives the message `failed to get [args]`; without an
error the result is the trimmed output, which is not empty. `IP`, `URL`, `Status`
and `CertPath` are `get` on `ip <name>`, `url <name>`, `status <name>` and
`inspect <name> -f {{.HostOptions.AuthOptions.StorePath}}`. -/
theorem get_error_iff_process_error_or_blank (tool : Tool) (w : Trace) (args : Strings)
    (name : String) :
    (machineCommand.get tool w args).2 = w ++ [⟨"docker-machine", args, .capture⟩]
    ∧ ((machineCommand.get tool w args).1.2 ≠ none ↔
        ((tool w ⟨"docker-machine", args, .capture⟩).err ≠ none
          ∨ TrimSpace (tool w ⟨"docker-machine", args, .capture⟩).data = ""))
    ∧ ((tool w ⟨"docker-machine", args, .capture⟩).err ≠ none →
        (machineCommand.get tool w args).1.2
          = (tool w ⟨"docker-machine", args, .capture⟩).err)
    ∧ ((tool w ⟨"docker-machine", args, .capture⟩).err = none →
        TrimSpace (tool w ⟨"docker-machine", args, .capture⟩).data = "" →
        (machineCommand.get tool w args).1.2 = some ("failed to get " ++ formatV args))
    ∧ ((machineCommand.get tool w args).1.2 = none →
        (machineCommand.get tool w args).1.1
            = TrimSpace (tool w ⟨"docker-machine", args, .capture⟩).data
          ∧ (machineCommand.get tool w args).1.1 ≠ "")
    ∧ machineCommand.IP tool w name = machineCommand.get tool w ["ip", name]
    ∧ machineCommand.URL tool w name = machineCommand.get tool w ["url", name]
    ∧ machineCommand.Status tool w name = machineCommand.get tool w ["status", name]
    ∧ machineCommand.CertPath tool w name = machineCommand.get tool w
        ["inspect", name, "-f", "\x7b\x7b.HostOptions.AuthOptions.StorePath\x7d\x7d"] := by
  refine ⟨?_, ?_, ?_, ?_, ?_, rfl, rfl, rfl, rfl⟩
  · unfold machineCommand.get exec
    dsimp only
    cases (tool w ⟨"docker-machine", args, .capture⟩).err <;> dsimp only
    split <;> rfl
  · unfold machineCommand.get exec
    dsimp only
    cases (tool w ⟨"docker-machine", args, .capture⟩).err <;> dsimp only
    · split <;> simp_all
    · simp
  · unfold machineCommand.get exec
    dsimp only
    cases (tool w ⟨"docker-machine", args, .capture⟩).err <;> simp
  · intro h1 h2
    unfold machineCommand.get exec
    dsimp only
    rw [h1]
    simp [h2]
  · unfold machineCommand.get exec
    dsimp only
    cases (tool w ⟨"docker-machine", args, .capture⟩).err <;> dsimp only
    · split <;> simp_all
    · simp

/-- Witness for C10: `docker-machine ip node-1` printing only a newline. -/
theorem get_error_iff_process_error_or_blank_witness :
    (machineCommand.get (fun _ _ => ⟨"\n", none⟩) [] ["ip", "node-1"]).1.2
        = some "failed to get [ip node-1]" :=
  (get_error_iff_process_error_or_blank (fun _ _ => ⟨"\n", none⟩) []
    ["ip", "node-1"] "node-1").2.2.2.1 rfl (by decide)

/-- C4: `Credentials` returns a nil error iff the probe `config <name>` succeeds and
the URL fetch and the certificate-path fetch both succeed with non-blank output; the
result is then the trimmed URL output, the trimmed inspect output and
`TLSVerify = true`. When the probe fails the error is "Can't connect" and only the
probe was run; when the URL fetch fails its error is returned and the
certificate-path fetch is not run. -/
theorem Credentials_ok_iff_probe_and_fetches (tool : Tool) (w : Trace) (name : String) :
    ((machineCommand.Credentials tool w name).1.2 = none ↔
        (tool w (configInv name)).err = none
        ∧ ((tool (w ++ [configInv name]) (urlInv name)).err = none
            ∧ TrimSpace (tool (w ++ [configInv name]) (urlInv name)).data ≠ "")
        ∧ ((tool (w ++ [configInv name, urlInv name]) (inspectInv name)).err = none
            ∧ TrimSpace (tool (w ++ [configInv name, urlInv name])
                (inspectInv name)).data ≠ ""))
    ∧ ((machineCommand.Credentials tool w name).1.2 = none →
        (machineCommand.Credentials tool w name).1.1
          = { Host := TrimSpace (tool (w ++ [configInv name]) (urlInv name)).data
              CertPath := TrimSpace (tool (w ++ [configInv name, urlInv name])
                (inspectInv name)).data
              TLSVerify := true })
    ∧ ((tool w (configInv name)).err ≠ none →
        (machineCommand.Credentials tool w name).1.2 = some "Can't connect"
        ∧ (machineCommand.Credentials tool w name).2 = w ++ [configInv name])
    ∧ ((tool w (configInv name)).err = none →
        (machineCommand.URL tool (w ++ [configInv name]) name).1.2 ≠ none →
        (machineCommand.Credentials tool w name).1.2
            = (machineCommand.URL tool (w ++ [configInv name]) name).1.2
        ∧ (machineCommand.Credentials tool w name).2
            = w ++ [configInv name, urlInv name]) := by
  unfold machineCommand.Credentials machineCommand.CanConnect machineCommand.URL
    machineCommand.CertPath machineCommand.get exec configInv urlInv inspectInv
  generalize (⟨"docker-machine", ["config", name], .discard⟩ : Invocation) = cfg
  generalize (⟨"docker-machine", ["url", name], .capture⟩ : Invocation) = url
  generalize (⟨"docker-machine",
    ["inspect", name, "-f", "\x7b\x7b.HostOptions.AuthOptions.StorePath\x7d\x7d"],
    .capture⟩ : Invocation) = ins
  cases hp : (tool w cfg).err with
  | some e => simp [hp]
  | none =>
    cases hu : (tool (w ++ [cfg]) url).err with
    | some e => simp [hp, hu]
    | none =>
      by_cases hub : TrimSpace (tool (w ++ [cfg]) url).data = ""
      · simp [hp, hu, hub]
      · cases hc : (tool (w ++ [cfg, url]) ins).err with
        | some e => simp [hp, hu, hub, hc]
        | none =>
          by_cases hcb : TrimSpace (tool (w ++ [cfg, url]) ins).data = ""
          · simp [hp, hu, hub, hc, hcb]
          · simp [hp, hu, hub, hc, hcb]

/-- Witness for C4: a tool whose probe fails. -/
theorem Credentials_ok_iff_probe_and_fetches_witness :
    (machineCommand.Credentials (fun _ _ => ⟨"", some "exit status 1"⟩) [] "node-1").1.2
        = some "Can't connect"
    ∧ (machineCommand.Credentials (fun _ _ => ⟨"", some "exit status 1"⟩) [] "node-1").2
        = [] ++ [configInv "node-1"] :=
  (Credentials_ok_iff_probe_and_fetches (fun _ _ => ⟨"", some "exit status 1"⟩) []
    "node-1").2.2.1 (by decide)

end DockerHelpers

/-! ## Theorems: the network client -/

namespace Network

/-- C5: for the base URL `https://[::1]:8443`, whose host is `[::1]:8443`, with no
explicit CA file and the certificate directory `/etc/certs`, `newClient` derives
the CA file `/etc/certs/[.crt`: the host is cut at its first colon, which lies
inside the bracketed IPv6 literal. -/
theorem newClient_ipv6_host_ca_file :
    newClient parseLoopback "/etc/certs" ⟨"https://[::1]:8443", "", false⟩
      = .ok { Transport := none
              url := ⟨"[::1]:8443", "https://[::1]:8443/api/v1/"⟩
              caFile := "/etc/certs/[.crt"
              skipVerify := false
              updateTime := 0 } := by
  rfl

/-- C9: `createTransport` always installs a transport. Its TLS configuration has
custom roots iff a CA file is configured, reading it succeeds and certificates are
found in it, and the roots are then exactly those certificates; the skip-verify flag
is the client's and the minimum version is TLS 1.0. -/
theorem createTransport_roots_iff (env : Env) (n : client) :
    ∃ t : Transport, (n.createTransport env).Transport = some t
      ∧ (t.TLSClientConfig.RootCAs ≠ none ↔
          n.caFile ≠ "" ∧ ∃ data, env.readFile n.caFile = .ok data ∧ env.pemCerts data ≠ [])
      ∧ (∀ data, n.caFile ≠ "" → env.readFile n.caFile = .ok data → env.pemCerts data ≠ [] →
          t.TLSClientConfig.RootCAs = some (env.pemCerts data))
      ∧ t.TLSClientConfig.InsecureSkipVerify = n.skipVerify
      ∧ t.TLSClientConfig.MinVersion = VersionTLS10 := by
  refine ⟨_, rfl, ?_, ?_, ?_, ?_⟩
  · unfold tlsConfigOf
    by_cases hca : n.caFile = ""
    · simp [hca]
    · cases hr : env.readFile n.caFile with
      | error e => simp [hca]
      | ok data =>
        by_cases hp : env.pemCerts data = []
        · simp [hca, hp]
        · simp [hca, hp]
  · intro data hca hr hp
    unfold tlsConfigOf
    simp [hca, hr, hp]
  · unfold tlsConfigOf
    by_cases hca : n.caFile = ""
    · simp [hca]
    · cases hr : env.readFile n.caFile with
      | error e => simp [hca]
      | ok data => by_cases hp : env.pemCerts data = [] <;> simp [hca, hp]
  · unfold tlsConfigOf
    by_cases hca : n.caFile = ""
    · simp [hca]
    · cases hr : env.readFile n.caFile with
      | error e => simp [hca]
      | ok data => by_cases hp : env.pemCerts data = [] <;> simp [hca, hp]

/-- Witness for C9: a CA file holding one certificate. -/
theorem createTransport_roots_iff_witness :
    ∃ t : Transport,
      (freshClient.createTransport (caModifiedAt100 150)).Transport = some t
      ∧ t.TLSClientConfig.RootCAs = some ["cert"] := by
  obtain ⟨t, ht, _, hroots, _, _⟩ :=
    createTransport_roots_iff (caModifiedAt100 150) freshClient
  exact ⟨t, ht, hroots "pem" (by decide) rfl (by decide)⟩

/-- C7: `do` returns the status -1 when the path does not resolve against the base
URL, when the request value does not serialize, when the HTTP request cannot be
constructed, when the round trip fails, and when the status matched but decoding
into the response target failed. In the first three cases the client is left as it
was (`ensureTlsConfig` is not called) and nothing is sent. -/
theorem do_returns_sentinel_on_failure {Req Resp : Type} (net : Net Req Resp) (env : Env)
    (n : client) (uri method : String) (statusCode : Int) (request : Option Req)
    (response : Option Resp) :
    (∀ e, net.resolve n.url uri = .error e →
        (n.do net env uri method statusCode request response).status = -1
        ∧ (n.do net env uri method statusCode request response).n = n
        ∧ (n.do net env uri method statusCode request response).events = [])
    ∧ (∀ url r e, net.resolve n.url uri = .ok url → request = some r →
        net.marshal r = .error e →
        (n.do net env uri method statusCode request response).status = -1
        ∧ (n.do net env uri method statusCode request response).n = n
        ∧ (n.do net env uri method statusCode request response).events = [])
    ∧ (∀ url body e, net.resolve n.url uri = .ok url →
        marshalBody net request = .ok body →
        net.newRequest method url.text body = .error e →
        (n.do net env uri method statusCode request response).status = -1
        ∧ (n.do net env uri method statusCode request response).n = n
        ∧ (n.do net env uri method statusCode request response).events = [])
    ∧ (∀ url body req e, net.resolve n.url uri = .ok url →
        marshalBody net request = .ok body →
        net.newRequest method url.text body = .ok req →
        net.roundTrip (n.ensureTlsConfig env).Transport (withContentType request req)
          = .error e →
        (n.do net env uri method statusCode request response).status = -1)
    ∧ (∀ url body req res target e, net.resolve n.url uri = .ok url →
        marshalBody net request = .ok body →
        net.newRequest method url.text body = .ok req →
        net.roundTrip (n.ensureTlsConfig env).Transport (withContentType request req)
          = .ok res →
        res.StatusCode = statusCode → response = some target →
        (net.decode res.Body target).2 = some e →
        (n.do net env uri method statusCode request response).status = -1) := by
  refine ⟨?_, ?_, ?_, ?_, ?_⟩
  · intro e h
    simp [client.do, h]
  · intro url r e h hr hm
    subst hr
    simp [client.do, h, marshalBody, hm]
  · intro url body e h hb hq
    simp [client.do, h, hb, hq]
  · intro url body req e h hb hq ht
    simp [client.do, h, hb, hq, ht]
  · intro url body req res target e h hb hq ht hs hresp hd
    subst hresp
    simp [client.do, h, hb, hq, ht, hs, hd]

/-- Witness for C7: a path that does not resolve. -/
theorem do_returns_sentinel_on_failure_witness :
    (freshClient.do unresolvableNet (caModifiedAt100 150) "%zz" "GET" 200
        (none : Option String) (none : Option String)).status = -1
    ∧ (freshClient.do unresolvableNet (caModifiedAt100 150) "%zz" "GET" 200
        (none : Option String) (none : Option String)).n = freshClient
    ∧ (freshClient.do unresolvableNet (caModifiedAt100 150) "%zz" "GET" 200
        (none : Option String) (none : Option String)).events = [] :=
  (do_returns_sentinel_on_failure unresolvableNet (caModifiedAt100 150) freshClient "%zz"
    "GET" 200 none none).1 "parse error" rfl

/-- C8: when the exchange completes with a response, `do` hands the body to the
decoder iff the status code equals the expected one and a response target was
supplied. In that case the response target afterwards is what the decoder made of
the body and the target, and the result is -1 with the decoding error or, without
error, the status code and text. When the status code differs, `do` returns that
code with its status text, leaves the response target as it was and decodes
nothing. -/
theorem do_decodes_iff_status_matches {Req Resp : Type} (net : Net Req Resp) (env : Env)
    (n : client) (uri method : String) (statusCode : Int) (request : Option Req)
    (response : Option Resp) (url : URL) (body : String) (req : Request) (res : Response)
    (hu : net.resolve n.url uri = .ok url)
    (hb : marshalBody net request = .ok body)
    (hq : net.newRequest method url.text body = .ok req)
    (ht : net.roundTrip (n.ensureTlsConfig env).Transport (withContentType request req)
      = .ok res) :
    ((∃ b, Event.decode b ∈ (n.do net env uri method statusCode request response).events) ↔
        res.StatusCode = statusCode ∧ response.isSome)
    ∧ (res.StatusCode ≠ statusCode →
        (n.do net env uri method statusCode request response).status = res.StatusCode
        ∧ (n.do net env uri method statusCode request response).message = res.Status
        ∧ (n.do net env uri method statusCode request response).response = response
        ∧ (n.do net env uri method statusCode request response).events
            = [.ensureTls, .send (withContentType request req)])
    ∧ (∀ target, res.StatusCode = statusCode → response = some target →
        (n.do net env uri method statusCode request response).response
            = some (net.decode res.Body target).1
        ∧ (n.do net env uri method statusCode request response).events
            = [.ensureTls, .send (withContentType request req), .decode res.Body]
        ∧ (∀ e, (net.decode res.Body target).2 = some e →
            (n.do net env uri method statusCode request response).status = -1
            ∧ (n.do net env uri method statusCode request response).message
                = "Error decoding json payload " ++ e)
        ∧ ((net.decode res.Body target).2 = none →
            (n.do net env uri method statusCode request response).status = res.StatusCode
            ∧ (n.do net env uri method statusCode request response).message = res.Status))
    ∧ (response = none →
        (n.do net env uri method statusCode request response).status = res.StatusCode
        ∧ (n.do net env uri method statusCode request response).message = res.Status
        ∧ (n.do net env uri method statusCode request response).response = none
        ∧ (n.do net env uri method statusCode request response).events
            = [.ensureTls, .send (withContentType request req)]) := by
  by_cases hs : res.StatusCode = statusCode
  · cases response with
    | none => simp [client.do, hu, hb, hq, ht, hs]
    | some target =>
      cases hd : (net.decode res.Body target).2 with
      | none => simp [client.do, hu, hb, hq, ht, hs, hd]
      | some e => simp [client.do, hu, hb, hq, ht, hs, hd]
  · cases response with
    | none => simp [client.do, hu, hb, hq, ht, hs]
    | some target => simp [client.do, hu, hb, hq, ht, hs]

/-- Witness for C8: status 200 expected and 404 received, where the target keeps
its content; and status 404 expected and received, where the target receives the
decoded body. -/
theorem do_decodes_iff_status_matches_witness :
    ((freshClient.do notFoundNet (caModifiedAt100 150) "builds/register.json" "POST" 200
        (some "1") (some "")).status = 404
      ∧ (freshClient.do notFoundNet (caModifiedAt100 150) "builds/register.json" "POST" 200
        (some "1") (some "")).message = "404 Not Found"
      ∧ (freshClient.do notFoundNet (caModifiedAt100 150) "builds/register.json" "POST" 200
        (some "1") (some "")).response = some ""
      ∧ (freshClient.do notFoundNet (caModifiedAt100 150) "builds/register.json" "POST" 200
        (some "1") (some "")).events
          = [.ensureTls, .send (withContentType (some "1")
              ⟨"POST", "https://ci.example.com/api/v1/builds/register.json", "1", []⟩)])
    ∧ (freshClient.do notFoundNet (caModifiedAt100 150) "builds/register.json" "POST" 404
        (some "1") (some "")).response = some "null" :=
  ⟨(do_decodes_iff_status_matches notFoundNet (caModifiedAt100 150) freshClient
      "builds/register.json" "POST" 200 (some "1") (some "")
      ⟨"ci.example.com", "https://ci.example.com/api/v1/builds/register.json"⟩ "1"
      ⟨"POST", "https://ci.example.com/api/v1/builds/register.json", "1", []⟩
      ⟨404, "404 Not Found", "null"⟩ rfl rfl rfl rfl).2.1 (by decide),
    ((do_decodes_iff_status_matches notFoundNet (caModifiedAt100 150) freshClient
      "builds/register.json" "POST" 404 (some "1") (some "")
      ⟨"ci.example.com", "https://ci.example.com/api/v1/builds/register.json"⟩ "1"
      ⟨"POST", "https://ci.example.com/api/v1/builds/register.json", "1", []⟩
      ⟨404, "404 Not Found", "null"⟩ rfl rfl rfl rfl).2.2.1 "" rfl rfl).1⟩

end Network
